import Mathlib

/-!
Verification of the optimistic task cache, sync coordinator and reminder
scheduler of the zest-task-dash repository.

The embedding follows the source files:
* `src/src/types/task.ts` — data model,
* `src/src/store/taskStore.ts` — local task cache (zustand store),
* `src/src/hooks/useRoles.tsx` (second section, `useTasks`) — sync coordinator,
* `src/src/hooks/useNotifications.tsx` — reminder scheduler.

Timestamps are epoch milliseconds, modelled as `Int` (JS `Date.getTime()`).
-/

namespace ZestTaskDash

/-- Task priority (`src/src/types/task.ts`). -/
inductive Priority
  | high
  | medium
  | low
deriving DecidableEq, Repr

/-- Task status (`src/src/types/task.ts`). -/
inductive TaskStatus
  | pending
  | completed
deriving DecidableEq, Repr

/-- Reminder record (`src/src/types/task.ts`).  The `type` field is kept as a
plain string (`rtype`) since no logic inspects it; the optional `snoozedUntil`
field is never read or written by the code and is omitted. -/
structure Reminder where
  id : String
  taskId : String
  time : Int
  rtype : String
  triggered : Bool
deriving DecidableEq, Repr

/-- Task record (`src/src/types/task.ts`).  `dueDate`, `estimatedMinutes`,
`completedAt` and `assignedTo` are nullable.  The optional display-only
`assignedToName` field (UI label, never used by cache/scheduler logic) is
omitted. -/
structure Task where
  id : String
  title : String
  description : String
  priority : Priority
  status : TaskStatus
  dueDate : Option Int
  category : String
  tags : List String
  estimatedMinutes : Option Int
  createdAt : Int
  completedAt : Option Int
  reminders : List Reminder
  assignedTo : Option String
deriving DecidableEq, Repr

/-- A field-wise update record, modelling the TypeScript `Partial<Task>`
argument of `updateTaskOptimistic` / `updateTask`: `none` means the field is
absent from the update object, `some v` means it is present with value `v`.
For the nullable fields the inner `Option` is the value itself. -/
structure TaskPatch where
  id : Option String := none
  title : Option String := none
  description : Option String := none
  priority : Option Priority := none
  status : Option TaskStatus := none
  dueDate : Option (Option Int) := none
  category : Option String := none
  tags : Option (List String) := none
  estimatedMinutes : Option (Option Int) := none
  createdAt : Option Int := none
  completedAt : Option (Option Int) := none
  reminders : Option (List Reminder) := none
  assignedTo : Option (Option String) := none
deriving DecidableEq, Repr

/-- `taskStore.ts` line 83: `'id' in updates && 'title' in updates &&
'createdAt' in updates` — the update object is treated as a full `Task`
replacement exactly when these three fields are present. -/
def TaskPatch.isFullReplacement (u : TaskPatch) : Bool :=
  u.id.isSome && u.title.isSome && u.createdAt.isSome

/-- The `updates as Task` cast of `taskStore.ts` line 84.  In the source every
caller of the full-replacement path passes a complete `Task` record, so all
fields are present; the defaults below are only reached for fields absent from
the update object (which would be `undefined` in JS) and never matter in any
theorem proved here. -/
def TaskPatch.castTask (u : TaskPatch) : Task where
  id := u.id.getD ""
  title := u.title.getD ""
  description := u.description.getD ""
  priority := u.priority.getD Priority.medium
  status := u.status.getD TaskStatus.pending
  dueDate := u.dueDate.getD none
  category := u.category.getD ""
  tags := u.tags.getD []
  estimatedMinutes := u.estimatedMinutes.getD none
  createdAt := u.createdAt.getD 0
  completedAt := u.completedAt.getD none
  reminders := u.reminders.getD []
  assignedTo := u.assignedTo.getD none

/-- The spread `{ ...task, ...updates }` of `taskStore.ts` line 86: every field
present in the update object overrides the corresponding field of the task. -/
def Task.applyPatch (t : Task) (u : TaskPatch) : Task where
  id := u.id.getD t.id
  title := u.title.getD t.title
  description := u.description.getD t.description
  priority := u.priority.getD t.priority
  status := u.status.getD t.status
  dueDate := u.dueDate.getD t.dueDate
  category := u.category.getD t.category
  tags := u.tags.getD t.tags
  estimatedMinutes := u.estimatedMinutes.getD t.estimatedMinutes
  createdAt := u.createdAt.getD t.createdAt
  completedAt := u.completedAt.getD t.completedAt
  reminders := u.reminders.getD t.reminders
  assignedTo := u.assignedTo.getD t.assignedTo

/-- A full `Task` passed where a `Partial<Task>` is expected (as in the
reconciliation call `updateTaskOptimistic(optimisticTask.id, realTask)` and the
rollback call `updateTaskOptimistic(id, originalTask)`): every field present. -/
def Task.toPatch (t : Task) : TaskPatch where
  id := some t.id
  title := some t.title
  description := some t.description
  priority := some t.priority
  status := some t.status
  dueDate := some t.dueDate
  category := some t.category
  tags := some t.tags
  estimatedMinutes := some t.estimatedMinutes
  createdAt := some t.createdAt
  completedAt := some t.completedAt
  reminders := some t.reminders
  assignedTo := some t.assignedTo

/-- `taskStore.ts` `addTaskOptimistic` (lines 74-76): prepends the task. -/
def addTaskOptimistic (t : Task) (tasks : List Task) : List Task :=
  t :: tasks

/-- Body of the `tasks.map` callback in `taskStore.ts` `updateTaskOptimistic`
(lines 80-89). -/
def updateOne (i : String) (u : TaskPatch) (t : Task) : Task :=
  if t.id = i then
    if u.isFullReplacement then u.castTask else t.applyPatch u
  else t

/-- `taskStore.ts` `updateTaskOptimistic` (lines 78-91): maps `updateOne` over
the task list. -/
def updateTaskOptimistic (i : String) (u : TaskPatch) (tasks : List Task) :
    List Task :=
  tasks.map (updateOne i u)

/-- `taskStore.ts` `deleteTaskOptimistic` (lines 93-97): keeps the tasks whose
id differs. -/
def deleteTaskOptimistic (i : String) (tasks : List Task) : List Task :=
  tasks.filter fun t => t.id ≠ i

/-- The argument of `addTask` in `useRoles.tsx` (line 303):
`Omit<Task, 'id' | 'createdAt' | 'completedAt' | 'status' | 'reminders'>`
plus an optional assignment.  The caller `TaskForm.tsx` additionally passes a
`reminders` field in the object it hands over (structural typing permits the
extra field), so it is kept here to show `addTask` ignores it. -/
structure TaskData where
  title : String
  description : String
  priority : Priority
  dueDate : Option Int
  category : String
  tags : List String
  estimatedMinutes : Option Int
  reminders : List Reminder := []
  assignedTo : Option String := none
deriving DecidableEq, Repr

/-- The optimistic task built by `addTask` (`useRoles.tsx` lines 314-321):
`{ ...taskData, id: crypto.randomUUID(), status: 'pending', createdAt: new
Date(), completedAt: null, reminders: [] }` — the explicit fields come after
the spread and override anything in `taskData`. -/
def mkOptimisticTask (d : TaskData) (freshId : String) (now : Int) : Task where
  id := freshId
  title := d.title
  description := d.description
  priority := d.priority
  status := TaskStatus.pending
  dueDate := d.dueDate
  category := d.category
  tags := d.tags
  estimatedMinutes := d.estimatedMinutes
  createdAt := now
  completedAt := none
  reminders := []
  assignedTo := d.assignedTo

/-- A database row for a task as returned by the remote store (column names
from the supabase schema). -/
structure DbRow where
  id : String
  title : String
  description : Option String
  priority : Priority
  status : TaskStatus
  due_date : Option Int
  category : Option String
  tags : Option (List String)
  estimated_minutes : Option Int
  created_at : Int
  completed_at : Option Int
  assigned_to : Option String
deriving DecidableEq, Repr

/-- `dbToTask` (`useRoles.tsx` lines 191-208).  Note `reminders: []` — the
converted record never carries reminders. -/
def dbToTask (row : DbRow) : Task where
  id := row.id
  title := row.title
  description := row.description.getD ""
  priority := row.priority
  status := row.status
  dueDate := row.due_date
  category := row.category.getD "Personal"
  tags := row.tags.getD []
  estimatedMinutes := row.estimated_minutes
  createdAt := row.created_at
  completedAt := row.completed_at
  reminders := []
  assignedTo := row.assigned_to

/-- Cache effect of `addTask` (`useRoles.tsx` lines 303-373).  `outcome = some
row` models a successful insert whose response row is `row` (the code then
replaces the optimistic entry with `dbToTask row` keyed by the temporary id);
`outcome = none` models a failed request (the code deletes the temporary id). -/
def addTask (tasks : List Task) (d : TaskData) (freshId : String) (now : Int)
    (outcome : Option DbRow) : List Task :=
  let optimisticTask := mkOptimisticTask d freshId now
  let afterOptimistic := addTaskOptimistic optimisticTask tasks
  match outcome with
  | some row => updateTaskOptimistic optimisticTask.id (dbToTask row).toPatch
      afterOptimistic
  | none => deleteTaskOptimistic optimisticTask.id afterOptimistic

/-- Cache effect of `updateTask` (`useRoles.tsx` lines 376-417).  The original
entry is captured with `find` before the optimistic apply; if the id is absent
the function returns without mutating; `ok = false` models a failed request,
rolled back by patching the id with the captured full record. -/
def updateTask (tasks : List Task) (i : String) (u : TaskPatch) (ok : Bool) :
    List Task :=
  match tasks.find? (fun t => t.id = i) with
  | none => tasks
  | some originalTask =>
    let afterOptimistic := updateTaskOptimistic i u tasks
    if ok then afterOptimistic
    else updateTaskOptimistic i originalTask.toPatch afterOptimistic

/-- Cache effect of `deleteTask` (`useRoles.tsx` lines 420-450).  The original
entry is captured before the optimistic delete; on failure it is re-inserted
with `addTaskOptimistic` (when it was found). -/
def deleteTask (tasks : List Task) (i : String) (ok : Bool) : List Task :=
  let originalTask := tasks.find? (fun t => t.id = i)
  let afterOptimistic := deleteTaskOptimistic i tasks
  if ok then afterOptimistic
  else
    match originalTask with
    | some t => addTaskOptimistic t afterOptimistic
    | none => afterOptimistic

/-- The single update object built by `toggleTaskStatus` (`useRoles.tsx` lines
457-460): status and completedAt are set together in one patch. -/
def toggleUpdates (t : Task) (now : Int) : TaskPatch :=
  let newStatus :=
    if t.status = TaskStatus.pending then TaskStatus.completed
    else TaskStatus.pending
  let completedAt : Option Int :=
    if newStatus = TaskStatus.completed then some now else none
  { status := some newStatus, completedAt := some completedAt }

/-- Cache effect of `toggleTaskStatus` (`useRoles.tsx` lines 453-461): reads
the current task, derives the opposite status plus the matching completedAt,
and issues one `updateTask` call. -/
def toggleTaskStatus (tasks : List Task) (i : String) (now : Int) (ok : Bool) :
    List Task :=
  match tasks.find? (fun t => t.id = i) with
  | none => tasks
  | some task => updateTask tasks i (toggleUpdates task now) ok

/-- Runtime entry of a fired-but-undismissed reminder
(`useNotifications.tsx` lines 6-12). -/
structure ActiveReminder where
  id : String
  taskId : String
  taskTitle : String
  reminderTime : Int
  snoozeCount : Nat
deriving DecidableEq, Repr

/-- Runtime state of the `useNotifications` hook together with the shared task
cache it reads and patches.  `snoozeTimers` models the
`snoozeIntervalsRef` map from reminder id to the live timer handle: each
handle is a fresh token drawn from `nextToken`; `clearTimeout` plus `map.set`
replaces the entry for an id, so the map holds at most the most recent live
timer per reminder id. -/
structure NotifState where
  tasks : List Task
  activeReminders : List ActiveReminder
  snoozeTimers : List (String × Nat)
  nextToken : Nat
deriving DecidableEq, Repr

/-- `triggerReminder` (`useNotifications.tsx` lines 77-111): append the active
entry unless an entry with the same reminder id already exists, then patch the
task's reminders (computed from the `task` argument, i.e. the scan snapshot)
marking this reminder as triggered.  The desktop/toast notification side
effects are modelled by the fired list returned by `checkReminders`. -/
def triggerReminder (task : Task) (reminder : Reminder) (s : NotifState) :
    NotifState :=
  let entry : ActiveReminder :=
    { id := reminder.id, taskId := task.id, taskTitle := task.title,
      reminderTime := reminder.time, snoozeCount := 0 }
  let newActive :=
    if s.activeReminders.any (fun r => r.id = reminder.id) then
      s.activeReminders
    else s.activeReminders ++ [entry]
  let updatedReminders := task.reminders.map fun r =>
    if r.id = reminder.id then { r with triggered := true } else r
  { s with
    activeReminders := newActive,
    tasks := updateTaskOptimistic task.id { reminders := some updatedReminders }
      s.tasks }

/-- The due test of `checkReminders` (`useNotifications.tsx` line 184):
`reminderTime <= now && reminderTime > new Date(now.getTime() - 60000)`. -/
def reminderDue (now : Int) (r : Reminder) : Prop :=
  r.time ≤ now ∧ now - 60000 < r.time

instance (now : Int) (r : Reminder) : Decidable (reminderDue now r) := by
  unfold reminderDue
  exact inferInstance

/-- `checkReminders` (`useNotifications.tsx` lines 172-189): one scan at time
`now`.  The iteration runs over the `tasks` snapshot captured at scan start
(`s.tasks`), skipping completed tasks and already-triggered reminders, and
calls `triggerReminder` for each reminder inside the trailing 60-second
window.  Returns the new state together with the list of reminder ids for
which a notification fired during this scan. -/
def checkReminders (now : Int) (s : NotifState) : NotifState × List String :=
  s.tasks.foldl
    (fun acc task =>
      if task.status = TaskStatus.completed then acc
      else
        task.reminders.foldl
          (fun acc r =>
            if r.triggered then acc
            else if reminderDue now r then
              (triggerReminder task r acc.1, acc.2 ++ [r.id])
            else acc)
          acc)
    (s, [])

/-- `snoozeReminder` (`useNotifications.tsx` lines 114-152): for the matching
active entry, clear the previously scheduled snooze timer for that reminder
id, schedule a fresh 5-minute timer, and increment the entry's snooze count.
When no active entry matches, the map callback fires for no element and the
state is unchanged. -/
def snoozeReminder (reminderId : String) (s : NotifState) : NotifState :=
  let matched := s.activeReminders.any fun r => r.id = reminderId
  { s with
    activeReminders := s.activeReminders.map fun r =>
      if r.id = reminderId then { r with snoozeCount := r.snoozeCount + 1 }
      else r,
    snoozeTimers :=
      if matched then
        (reminderId, s.nextToken) ::
          s.snoozeTimers.filter (fun p => p.1 ≠ reminderId)
      else s.snoozeTimers,
    nextToken := if matched then s.nextToken + 1 else s.nextToken }

/-- Sort direction (`src/src/types/task.ts`). -/
inductive SortOrder
  | asc
  | desc
deriving DecidableEq, Repr

/-- Sign-faithful model of the due-date comparison in `getFilteredTasks`
(`taskStore.ts` lines 155-158): a null due date maps to `Infinity`, and the
comparison value is `aDate - bDate`.  Only the sign of the comparison is
observable through `Array.prototype.sort`, so the extended-real subtraction is
modelled by its sign: finite minus `Infinity` is negative (`-1`), `Infinity`
minus finite is positive (`1`), and `Infinity - Infinity` is `NaN`, which the
ECMAScript SortCompare operation treats as `+0`. -/
def dueCmp (a b : Task) : Int :=
  match a.dueDate, b.dueDate with
  | some x, some y => x - y
  | some _, none => -1
  | none, some _ => 1
  | none, none => 0

/-- The direction flip of `getFilteredTasks` (`taskStore.ts` line 171):
`sortOrder === 'asc' ? comparison : -comparison`. -/
def sortComparison (ord : SortOrder) (a b : Task) : Int :=
  match ord with
  | SortOrder.asc => dueCmp a b
  | SortOrder.desc => -(dueCmp a b)

/-- `a` is allowed to precede `b` under the comparator: comparator value at
most zero.  A comparator-consistent stable sort keeps `a` before `b` exactly
when this holds for adjacent elements. -/
def sortsBefore (ord : SortOrder) (a b : Task) : Prop :=
  sortComparison ord a b ≤ 0

instance (ord : SortOrder) : DecidableRel (sortsBefore ord) := fun a b => by
  unfold sortsBefore
  exact inferInstance

/-- The due-date sort of `getFilteredTasks` (`taskStore.ts` lines 152-172,
`sortBy = 'dueDate'` branch).  `Array.prototype.sort` is required to be stable
and comparator-consistent; it is modelled by a stable insertion sort with the
source comparator. -/
def sortByDueDate (ord : SortOrder) (ts : List Task) : List Task :=
  List.insertionSort (sortsBefore ord) ts

/-- Spec invariant (§3): `completedAt` is non-null exactly when the status is
completed. -/
def completedAtInvariant (t : Task) : Prop :=
  t.completedAt ≠ none ↔ t.status = TaskStatus.completed

instance (t : Task) : Decidable (completedAtInvariant t) := by
  unfold completedAtInvariant
  exact inferInstance

/-- The list of (task, reminder) pairs a scan at `now` fires, in scan order:
non-completed tasks of the snapshot, untriggered reminders inside the trailing
window. -/
def firedPairs (now : Int) (tasks : List Task) : List (Task × Reminder) :=
  (tasks.filter fun t => t.status ≠ TaskStatus.completed).flatMap fun t =>
    (t.reminders.filter fun r => !r.triggered && decide (reminderDue now r)).map
      fun r => (t, r)

/-- Folding `triggerReminder` over a list of fired pairs. -/
def applyFires (s : NotifState) (l : List (Task × Reminder)) : NotifState :=
  l.foldl (fun s p => triggerReminder p.1 p.2 s) s

/-! ### Helper lemmas: patches and cache operations -/

theorem castTask_toPatch (t : Task) : t.toPatch.castTask = t := rfl

theorem toPatch_isFullReplacement (t : Task) :
    t.toPatch.isFullReplacement = true := rfl

theorem applyPatch_id (t : Task) (u : TaskPatch) (h : u.id = none) :
    (t.applyPatch u).id = t.id := by
  simp [Task.applyPatch, h]

theorem isFullReplacement_eq_false_of_id_none (u : TaskPatch)
    (h : u.id = none) : u.isFullReplacement = false := by
  simp [TaskPatch.isFullReplacement, h]

theorem updateOne_of_ne (i : String) (u : TaskPatch) (t : Task)
    (h : t.id ≠ i) : updateOne i u t = t := by
  simp [updateOne, h]

theorem updateOne_of_eq_of_id_none (i : String) (u : TaskPatch) (t : Task)
    (ht : t.id = i) (h : u.id = none) :
    updateOne i u t = t.applyPatch u := by
  simp [updateOne, ht, isFullReplacement_eq_false_of_id_none u h]

theorem updateOne_id_of_id_none (i : String) (u : TaskPatch) (t : Task)
    (h : u.id = none) : (updateOne i u t).id = t.id := by
  by_cases ht : t.id = i
  · rw [updateOne_of_eq_of_id_none i u t ht h, applyPatch_id t u h]
  · rw [updateOne_of_ne i u t ht]

theorem updateOne_toPatch_of_eq (i : String) (t s : Task) (ht : t.id = i) :
    updateOne i s.toPatch t = s := by
  simp [updateOne, ht, toPatch_isFullReplacement, castTask_toPatch]

/-- A task whose id is absent from the list is untouched by
`updateTaskOptimistic`: the map is the identity. -/
theorem updateTaskOptimistic_of_not_mem (i : String) (u : TaskPatch)
    (tasks : List Task) (h : i ∉ tasks.map Task.id) :
    updateTaskOptimistic i u tasks = tasks := by
  unfold updateTaskOptimistic
  have : ∀ t ∈ tasks, updateOne i u t = t := by
    intro t ht
    apply updateOne_of_ne
    intro hid
    exact h (hid ▸ List.mem_map_of_mem Task.id ht)
  calc tasks.map (updateOne i u) = tasks.map id := List.map_congr_left this
    _ = tasks := List.map_id tasks

theorem deleteTaskOptimistic_of_not_mem (i : String) (tasks : List Task)
    (h : i ∉ tasks.map Task.id) : deleteTaskOptimistic i tasks = tasks := by
  unfold deleteTaskOptimistic
  apply List.filter_eq_self.mpr
  intro t ht
  simp only [ne_eq, decide_not, Bool.not_eq_eq_eq_not, Bool.not_true,
    decide_eq_false_iff_not]
  intro hid
  exact h (hid ▸ List.mem_map_of_mem Task.id ht)

/-- Two cache entries with the same id are equal when the cache satisfies the
id-uniqueness invariant. -/
theorem eq_of_mem_of_nodup_ids {tasks : List Task}
    (h : (tasks.map Task.id).Nodup) {a b : Task} (ha : a ∈ tasks)
    (hb : b ∈ tasks) (hab : a.id = b.id) : a = b :=
  List.inj_on_of_nodup_map h ha hb hab

theorem find?_id_mem {tasks : List Task} {i : String} {t : Task}
    (h : tasks.find? (fun x => x.id = i) = some t) : t ∈ tasks ∧ t.id = i := by
  refine ⟨List.mem_of_find?_eq_some h, ?_⟩
  have := List.find?_some h
  simpa using this

/-- `find?` on a patched cache: when the patch does not carry an id, the entry
found for `i` is the patched original entry. -/
theorem find?_updateTaskOptimistic (i : String) (u : TaskPatch)
    (tasks : List Task) (h : u.id = none) :
    (updateTaskOptimistic i u tasks).find? (fun x => x.id = i) =
      (tasks.find? (fun x => x.id = i)).map (fun t => t.applyPatch u) := by
  induction tasks with
  | nil => rfl
  | cons t ts ih =>
    unfold updateTaskOptimistic at *
    rw [List.map_cons]
    by_cases ht : t.id = i
    · rw [updateOne_of_eq_of_id_none i u t ht h,
        List.find?_cons_of_pos _ (by simp [applyPatch_id t u h, ht]),
        List.find?_cons_of_pos _ (by simpa using ht)]
      rfl
    · rw [updateOne_of_ne i u t ht,
        List.find?_cons_of_neg _ (by simpa using ht),
        List.find?_cons_of_neg _ (by simpa using ht), ih]

/-- Re-inserting the entry found for `i` in front of the cache purged of id
`i` is a permutation of the original cache (id-uniqueness assumed). -/
theorem perm_cons_filter_of_find {tasks : List Task} {i : String} {orig : Task}
    (hnodup : (tasks.map Task.id).Nodup)
    (hfind : tasks.find? (fun t => t.id = i) = some orig) :
    List.Perm (orig :: tasks.filter (fun t => t.id ≠ i)) tasks := by
  induction tasks with
  | nil => simp at hfind
  | cons t ts ih =>
    rw [List.map_cons, List.nodup_cons] at hnodup
    by_cases ht : t.id = i
    · rw [List.find?_cons_of_pos _ (by simpa using ht)] at hfind
      have horig : orig = t := by injection hfind with h; exact h.symm
      subst horig
      rw [List.filter_cons_of_neg (by simpa using ht)]
      have hkeep : ts.filter (fun t => t.id ≠ i) = ts := by
        apply List.filter_eq_self.mpr
        intro x hx
        simp only [ne_eq, decide_not, Bool.not_eq_eq_eq_not, Bool.not_true,
          decide_eq_false_iff_not]
        intro hxid
        apply hnodup.1
        have hmem : x.id ∈ List.map Task.id ts := List.mem_map_of_mem Task.id hx
        rwa [hxid, ← ht] at hmem
      rw [hkeep]
    · rw [List.find?_cons_of_neg _ (by simpa using ht)] at hfind
      rw [List.filter_cons_of_pos (by simpa using ht)]
      exact (List.Perm.swap t orig _).trans ((ih hnodup.2 hfind).cons t)

/-- A failed `addTask` removes exactly the optimistic entry, provided the
generated temporary id is fresh. -/
theorem addTask_failure_revert (tasks : List Task) (d : TaskData)
    (freshId : String) (now : Int) (hfresh : freshId ∉ tasks.map Task.id) :
    addTask tasks d freshId now none = tasks := by
  show deleteTaskOptimistic freshId (mkOptimisticTask d freshId now :: tasks)
      = tasks
  unfold deleteTaskOptimistic
  rw [List.filter_cons_of_neg (by simp [mkOptimisticTask])]
  exact deleteTaskOptimistic_of_not_mem freshId tasks hfresh

/-- A failed `updateTask` restores the pre-mutation cache exactly, provided
ids are unique and the update does not carry a replacement id. -/
theorem updateTask_failure_revert (tasks : List Task) (i : String)
    (u : TaskPatch) (hnodup : (tasks.map Task.id).Nodup)
    (hid : u.id = none ∨ u.id = some i) :
    updateTask tasks i u false = tasks := by
  cases hfind : tasks.find? (fun t => t.id = i) with
  | none =>
    unfold updateTask
    rw [hfind]
  | some orig =>
    unfold updateTask
    rw [hfind]
    show updateTaskOptimistic i orig.toPatch (updateTaskOptimistic i u tasks)
        = tasks
    unfold updateTaskOptimistic
    rw [List.map_map]
    have hstep : ∀ t ∈ tasks,
        (updateOne i orig.toPatch ∘ updateOne i u) t = t := by
      intro t htmem
      by_cases ht : t.id = i
      · have horig : t = orig := by
          obtain ⟨hmem, hoid⟩ := find?_id_mem hfind
          exact eq_of_mem_of_nodup_ids hnodup htmem hmem
            (ht.trans hoid.symm)
        have hmid : (updateOne i u t).id = i := by
          cases hid with
          | inl h => rw [updateOne_id_of_id_none i u t h]; exact ht
          | inr h =>
            unfold updateOne
            rw [if_pos ht]
            by_cases hf : u.isFullReplacement = true
            · simp [hf, TaskPatch.castTask, h]
            · simp [hf, Task.applyPatch, h]
        calc (updateOne i orig.toPatch ∘ updateOne i u) t
            = updateOne i orig.toPatch (updateOne i u t) := rfl
          _ = orig := updateOne_toPatch_of_eq i _ orig hmid
          _ = t := horig.symm
      · calc (updateOne i orig.toPatch ∘ updateOne i u) t
            = updateOne i orig.toPatch t := by
              rw [Function.comp_apply, updateOne_of_ne i u t ht]
          _ = t := updateOne_of_ne i orig.toPatch t ht
    calc tasks.map (updateOne i orig.toPatch ∘ updateOne i u)
        = tasks.map id := List.map_congr_left hstep
      _ = tasks := List.map_id tasks

/-- A failed `deleteTask` re-inserts the captured entry (in front), leaving a
permutation of the pre-mutation cache, provided ids are unique. -/
theorem deleteTask_failure_perm (tasks : List Task) (i : String)
    (hnodup : (tasks.map Task.id).Nodup) :
    List.Perm (deleteTask tasks i false) tasks := by
  cases hfind : tasks.find? (fun t => t.id = i) with
  | none =>
    unfold deleteTask
    rw [hfind]
    have hnomem : i ∉ tasks.map Task.id := by
      intro hmem
      obtain ⟨t, htmem, htid⟩ := List.mem_map.mp hmem
      have := List.find?_eq_none.mp hfind t htmem
      simp [htid] at this
    show List.Perm (deleteTaskOptimistic i tasks) tasks
    rw [deleteTaskOptimistic_of_not_mem i tasks hnomem]
  | some orig =>
    unfold deleteTask
    rw [hfind]
    show List.Perm (orig :: tasks.filter (fun t => t.id ≠ i)) tasks
    exact perm_cons_filter_of_find hnodup hfind

/-! ### Claim C1 -/

/-- Claim C1 (amended): for every task mutation issued through the sync
coordinator whose update does not carry a replacement id, a failed request
reverts the local task cache to its pre-mutation state — a failed `addTask`
removes the optimistic entry (its temporary id being fresh), a failed
`updateTask` restores the exact pre-mutation cache, and a failed `deleteTask`
re-inserts the captured entry, so the set of visible tasks equals the
pre-mutation set (the cache id-uniqueness invariant is assumed). -/
theorem failed_mutations_revert (tasks : List Task) (d : TaskData)
    (freshId : String) (now : Int) (i : String) (u : TaskPatch)
    (hfresh : freshId ∉ tasks.map Task.id)
    (hnodup : (tasks.map Task.id).Nodup)
    (hid : u.id = none ∨ u.id = some i) :
    addTask tasks d freshId now none = tasks ∧
    updateTask tasks i u false = tasks ∧
    List.Perm (deleteTask tasks i false) tasks :=
  ⟨addTask_failure_revert tasks d freshId now hfresh,
   updateTask_failure_revert tasks i u hnodup hid,
   deleteTask_failure_perm tasks i hnodup⟩

/-- Sample task (id `a`) for concrete instances. -/
def taskA : Task where
  id := "a"
  title := "A"
  description := ""
  priority := Priority.medium
  status := TaskStatus.pending
  dueDate := none
  category := "Work"
  tags := []
  estimatedMinutes := none
  createdAt := 0
  completedAt := none
  reminders := []
  assignedTo := none

/-- Sample insert payload for concrete instances. -/
def sampleData : TaskData where
  title := "N"
  description := ""
  priority := Priority.low
  dueDate := none
  category := "Work"
  tags := []
  estimatedMinutes := none

/-- A title-only update. -/
def titlePatchB : TaskPatch := { title := some "B" }

/-- A full-record update replacing the id (`id`, `title`, `createdAt` present
makes `updateTaskOptimistic` treat it as a full `Task` replacement). -/
def idChangingPatch : TaskPatch where
  id := some "b"
  title := some "B"
  description := some ""
  priority := some Priority.medium
  status := some TaskStatus.pending
  dueDate := some none
  category := some "Work"
  tags := some []
  estimatedMinutes := some none
  createdAt := some 0
  completedAt := some none
  reminders := some []
  assignedTo := some none

/-- Counterexample to claim C1 as stated: an `updateTask` whose update object
is a full record with a different id (`a` → `b`) cannot be rolled back —
after the remote failure the pre-mutation task is gone from the cache, so the
visible set differs from the pre-mutation set. -/
theorem failed_update_with_new_id_not_reverted :
    taskA ∉ updateTask [taskA] "a" idChangingPatch false ∧
    updateTask [taskA] "a" idChangingPatch false ≠ [taskA] := by decide

theorem failed_mutations_revert_witness :
    ("tmp" ∉ [taskA].map Task.id ∧ ([taskA].map Task.id).Nodup ∧
      (titlePatchB.id = none ∨ titlePatchB.id = some "a")) ∧
    (addTask [taskA] sampleData "tmp" 5 none = [taskA] ∧
      updateTask [taskA] "a" titlePatchB false = [taskA] ∧
      List.Perm (deleteTask [taskA] "a" false) [taskA]) :=
  ⟨⟨by decide, by decide, Or.inl rfl⟩,
   failed_mutations_revert [taskA] sampleData "tmp" 5 "a" titlePatchB
     (by decide) (by decide) (Or.inl rfl)⟩

/-! ### Claim C2 -/

/-- A successful `addTask` replaces the optimistic entry with the converted
server row, leaving the rest of the cache untouched. -/
theorem addTask_success_eq (tasks : List Task) (d : TaskData)
    (freshId : String) (now : Int) (row : DbRow)
    (hfresh : freshId ∉ tasks.map Task.id) :
    addTask tasks d freshId now (some row) = dbToTask row :: tasks := by
  show updateTaskOptimistic freshId (dbToTask row).toPatch
      (mkOptimisticTask d freshId now :: tasks) = dbToTask row :: tasks
  unfold updateTaskOptimistic
  rw [List.map_cons]
  rw [updateOne_toPatch_of_eq freshId _ (dbToTask row) rfl]
  congr 1
  have hrest : ∀ t ∈ tasks, updateOne freshId (dbToTask row).toPatch t = t := by
    intro t ht
    apply updateOne_of_ne
    intro hcontra
    exact hfresh (hcontra ▸ List.mem_map_of_mem Task.id ht)
  calc tasks.map (updateOne freshId (dbToTask row).toPatch)
      = tasks.map id := List.map_congr_left hrest
    _ = tasks := List.map_id tasks

/-- Claim C2: after a successful `addTask`, the optimistic entry created under
the fresh temporary id has been replaced by the server-returned canonical
record — the cache contains exactly one task with the server-assigned id and
zero tasks with the temporary id. -/
theorem insert_reconciliation (tasks : List Task) (d : TaskData)
    (freshId : String) (now : Int) (row : DbRow)
    (hfresh : freshId ∉ tasks.map Task.id)
    (hsrv : row.id ∉ tasks.map Task.id)
    (hne : row.id ≠ freshId) :
    (addTask tasks d freshId now (some row)).countP
        (fun t => t.id = row.id) = 1 ∧
    (addTask tasks d freshId now (some row)).countP
        (fun t => t.id = freshId) = 0 := by
  rw [addTask_success_eq tasks d freshId now row hfresh]
  have hzero : ∀ (j : String), j ∉ tasks.map Task.id →
      tasks.countP (fun t => t.id = j) = 0 := by
    intro j hj
    apply List.countP_eq_zero.mpr
    intro t ht
    simp only [decide_eq_true_eq]
    intro hc
    exact hj (hc ▸ List.mem_map_of_mem Task.id ht)
  constructor
  · rw [List.countP_cons, hzero row.id hsrv]
    simp [dbToTask]
  · rw [List.countP_cons, hzero freshId hfresh]
    simp [dbToTask, hne]

theorem insert_reconciliation_witness :
    ("tmp" ∉ [taskA].map Task.id ∧ "srv" ∉ [taskA].map Task.id ∧
      "srv" ≠ "tmp") ∧
    ((addTask [taskA] sampleData "tmp" 5
        (some { id := "srv", title := "N", description := none,
                priority := Priority.low, status := TaskStatus.pending,
                due_date := none, category := none, tags := none,
                estimated_minutes := none, created_at := 7,
                completed_at := none, assigned_to := none })).countP
        (fun t => t.id = "srv") = 1 ∧
      (addTask [taskA] sampleData "tmp" 5
        (some { id := "srv", title := "N", description := none,
                priority := Priority.low, status := TaskStatus.pending,
                due_date := none, category := none, tags := none,
                estimated_minutes := none, created_at := 7,
                completed_at := none, assigned_to := none })).countP
        (fun t => t.id = "tmp") = 0) :=
  ⟨⟨by decide, by decide, by decide⟩,
   insert_reconciliation [taskA] sampleData "tmp" 5 _
     (by decide) (by decide) (by decide)⟩

/-! ### Claim C9 -/

/-- Claim C9: `updateTaskOptimistic` (patch) with an id absent from the cache
is a no-op leaving the task list unchanged, and so is `deleteTaskOptimistic`
(remove); both are total functions, so no error is raised. -/
theorem absent_id_patch_remove_noop (tasks : List Task) (i : String)
    (u : TaskPatch) (habs : i ∉ tasks.map Task.id) :
    updateTaskOptimistic i u tasks = tasks ∧
    deleteTaskOptimistic i tasks = tasks :=
  ⟨updateTaskOptimistic_of_not_mem i u tasks habs,
   deleteTaskOptimistic_of_not_mem i tasks habs⟩

theorem absent_id_patch_remove_noop_witness :
    ("z" ∉ [taskA].map Task.id) ∧
    (updateTaskOptimistic "z" titlePatchB [taskA] = [taskA] ∧
      deleteTaskOptimistic "z" [taskA] = [taskA]) :=
  ⟨by decide, absent_id_patch_remove_noop [taskA] "z" titlePatchB (by decide)⟩

/-! ### Claim C10 -/

/-- Claim C10: every task placed in the cache by `addTask` has an empty
reminders list — the optimistic entry sets `reminders` to `[]` regardless of
any reminders supplied in the caller's payload (the `TaskData.reminders`
field is ignored by `mkOptimisticTask`), and the record built by `dbToTask`
(used for insert reconciliation and for every full reload) always has
`reminders = []`. -/
theorem addTask_entries_have_no_reminders :
    (∀ (d : TaskData) (freshId : String) (now : Int),
      (mkOptimisticTask d freshId now).reminders = []) ∧
    (∀ row : DbRow, (dbToTask row).reminders = []) :=
  ⟨fun _ _ _ => rfl, fun _ => rfl⟩

/-! ### Claim C5 -/

theorem dueCmp_eq_of_some_some {a b : Task} {x y : Int}
    (ha : a.dueDate = some x) (hb : b.dueDate = some y) :
    dueCmp a b = x - y := by
  unfold dueCmp
  rw [ha, hb]

theorem dueCmp_eq_of_some_none {a b : Task} {x : Int}
    (ha : a.dueDate = some x) (hb : b.dueDate = none) : dueCmp a b = -1 := by
  unfold dueCmp
  rw [ha, hb]

theorem dueCmp_eq_of_none_some {a b : Task} {y : Int}
    (ha : a.dueDate = none) (hb : b.dueDate = some y) : dueCmp a b = 1 := by
  unfold dueCmp
  rw [ha, hb]

theorem dueCmp_eq_of_none_none {a b : Task}
    (ha : a.dueDate = none) (hb : b.dueDate = none) : dueCmp a b = 0 := by
  unfold dueCmp
  rw [ha, hb]

theorem dueCmp_neg (a b : Task) : dueCmp b a = -(dueCmp a b) := by
  rcases ha : a.dueDate with _ | x <;> rcases hb : b.dueDate with _ | y
  · rw [dueCmp_eq_of_none_none hb ha, dueCmp_eq_of_none_none ha hb]
    omega
  · rw [dueCmp_eq_of_some_none hb ha, dueCmp_eq_of_none_some ha hb]
  · rw [dueCmp_eq_of_none_some hb ha, dueCmp_eq_of_some_none ha hb]
    omega
  · rw [dueCmp_eq_of_some_some hb ha, dueCmp_eq_of_some_some ha hb]
    omega

theorem dueCmp_trans_nonpos {a b c : Task} (h1 : dueCmp a b ≤ 0)
    (h2 : dueCmp b c ≤ 0) : dueCmp a c ≤ 0 := by
  rcases ha : a.dueDate with _ | x <;> rcases hb : b.dueDate with _ | y <;>
    rcases hc : c.dueDate with _ | z
  · rw [dueCmp_eq_of_none_none ha hc]
  · rw [dueCmp_eq_of_none_some hb hc] at h2
    omega
  · rw [dueCmp_eq_of_none_none ha hc]
  · rw [dueCmp_eq_of_none_some ha hb] at h1
    omega
  · rw [dueCmp_eq_of_some_none ha hc]
    omega
  · rw [dueCmp_eq_of_none_some hb hc] at h2
    omega
  · rw [dueCmp_eq_of_some_none ha hc]
    omega
  · rw [dueCmp_eq_of_some_some ha hb] at h1
    rw [dueCmp_eq_of_some_some hb hc] at h2
    rw [dueCmp_eq_of_some_some ha hc]
    omega

instance (ord : SortOrder) : IsTotal Task (sortsBefore ord) where
  total a b := by
    cases ord <;> simp only [sortsBefore, sortComparison] <;>
      rw [dueCmp_neg a b] <;> omega

instance (ord : SortOrder) : IsTrans Task (sortsBefore ord) where
  trans a b c h1 h2 := by
    cases ord <;> simp only [sortsBefore, sortComparison] at h1 h2 ⊢
    · exact dueCmp_trans_nonpos h1 h2
    · have hba : dueCmp b a ≤ 0 := by rw [dueCmp_neg a b]; omega
      have hcb : dueCmp c b ≤ 0 := by rw [dueCmp_neg b c]; omega
      have hca := dueCmp_trans_nonpos hcb hba
      rw [dueCmp_neg a c] at hca
      omega

/-- Claim C5 (amended): ascending due-date sort places every task with a null
due date after all tasks with non-null due dates (null ≈ +infinity); the
descending sort negates the same comparison, so it places every null-due-date
task before all tasks with non-null due dates. -/
theorem null_due_date_sort_position (ts : List Task) :
    List.Pairwise (fun a b => a.dueDate = none → b.dueDate = none)
      (sortByDueDate SortOrder.asc ts) ∧
    List.Pairwise (fun a b => b.dueDate = none → a.dueDate = none)
      (sortByDueDate SortOrder.desc ts) := by
  constructor
  · refine List.Pairwise.imp ?_
      (List.sorted_insertionSort (sortsBefore SortOrder.asc) ts)
    intro a b hab hnone
    cases hb : b.dueDate with
    | none => rfl
    | some y =>
      simp [sortsBefore, sortComparison, dueCmp, hnone, hb] at hab
  · refine List.Pairwise.imp ?_
      (List.sorted_insertionSort (sortsBefore SortOrder.desc) ts)
    intro a b hab hnone
    cases ha : a.dueDate with
    | none => rfl
    | some x =>
      simp [sortsBefore, sortComparison, dueCmp, hnone, ha] at hab

/-- Task with a due date, for the sort counterexample. -/
def taskDue : Task := { taskA with id := "d", dueDate := some 0 }

/-- Task without a due date, for the sort counterexample. -/
def taskNoDue : Task := { taskA with id := "n", dueDate := none }

/-- Counterexample to claim C5 as stated: in the descending due-date sort the
task with a null due date is placed before the task with a due date, not
after it. -/
theorem desc_sort_places_null_first :
    sortByDueDate SortOrder.desc [taskDue, taskNoDue] = [taskNoDue, taskDue] ∧
    taskNoDue.dueDate = none ∧ taskDue.dueDate ≠ none := by decide

/-! ### Claim C6 -/

theorem updateTask_none_eq {tasks : List Task} {i : String} {u : TaskPatch}
    {ok : Bool} (hfind : tasks.find? (fun t => t.id = i) = none) :
    updateTask tasks i u ok = tasks := by
  unfold updateTask
  rw [hfind]

theorem updateTask_true_eq {tasks : List Task} {i : String} {u : TaskPatch}
    {orig : Task} (hfind : tasks.find? (fun t => t.id = i) = some orig) :
    updateTask tasks i u true = updateTaskOptimistic i u tasks := by
  unfold updateTask
  rw [hfind]
  rfl

theorem updateTask_false_eq {tasks : List Task} {i : String} {u : TaskPatch}
    {orig : Task} (hfind : tasks.find? (fun t => t.id = i) = some orig) :
    updateTask tasks i u false =
      updateTaskOptimistic i orig.toPatch (updateTaskOptimistic i u tasks) := by
  unfold updateTask
  rw [hfind]
  rfl

theorem applyPatch_status_of_some {y : Task} {u : TaskPatch} {st : TaskStatus}
    (h : u.status = some st) : (y.applyPatch u).status = st := by
  simp [Task.applyPatch, h]

theorem applyPatch_completedAt_of_some {y : Task} {u : TaskPatch}
    {ca : Option Int} (h : u.completedAt = some ca) :
    (y.applyPatch u).completedAt = ca := by
  simp [Task.applyPatch, h]

theorem applyPatch_status_of_none {y : Task} {u : TaskPatch}
    (h : u.status = none) : (y.applyPatch u).status = y.status := by
  simp [Task.applyPatch, h]

theorem applyPatch_completedAt_of_none {y : Task} {u : TaskPatch}
    (h : u.completedAt = none) :
    (y.applyPatch u).completedAt = y.completedAt := by
  simp [Task.applyPatch, h]

theorem toggleUpdates_of_pending {x : Task} (now : Int)
    (h : x.status = TaskStatus.pending) :
    (toggleUpdates x now).status = some TaskStatus.completed ∧
    (toggleUpdates x now).completedAt = some (some now) := by
  unfold toggleUpdates
  rw [h]
  simp

theorem toggleUpdates_of_completed {x : Task} (now : Int)
    (h : x.status = TaskStatus.completed) :
    (toggleUpdates x now).status = some TaskStatus.pending ∧
    (toggleUpdates x now).completedAt = some none := by
  unfold toggleUpdates
  rw [h]
  simp

theorem toggleTaskStatus_eq {tasks : List Task} {i : String} {t : Task}
    (now : Int) (ok : Bool)
    (hfind : tasks.find? (fun x => x.id = i) = some t) :
    toggleTaskStatus tasks i now ok =
      updateTask tasks i (toggleUpdates t now) ok := by
  unfold toggleTaskStatus
  rw [hfind]

/-- Every entry of a patched cache matching the patched id is the patch
applied to an original entry with that id (patches without an id field). -/
theorem mem_updateTaskOptimistic_id {tasks : List Task} {i : String}
    {u : TaskPatch} {x : Task} (hu : u.id = none)
    (hx : x ∈ updateTaskOptimistic i u tasks) (hxi : x.id = i) :
    ∃ y ∈ tasks, y.id = i ∧ x = y.applyPatch u := by
  obtain ⟨y, hy, rfl⟩ := List.mem_map.mp hx
  by_cases hyi : y.id = i
  · exact ⟨y, hy, hyi, by rw [updateOne_of_eq_of_id_none i u y hyi hu]⟩
  · rw [updateOne_of_ne i u y hyi] at hxi
    exact absurd hxi hyi

/-- Claim C6: `toggleTaskStatus` on a pending task issues a single update
whose patch simultaneously carries `status = completed` and a non-null
`completedAt` (both fields in one `updateTask` call, never two separate
mutations), so every cache entry under that id ends completed with
`completedAt = some now`; toggling the resulting completed task issues the
single update restoring `status = pending` and `completedAt = none`. -/
theorem toggle_pending_completes_then_reverts (tasks : List Task) (i : String)
    (t : Task) (now now2 : Int)
    (hfind : tasks.find? (fun x => x.id = i) = some t)
    (hpending : t.status = TaskStatus.pending) :
    (toggleUpdates t now).status = some TaskStatus.completed ∧
    (toggleUpdates t now).completedAt = some (some now) ∧
    (∀ x ∈ toggleTaskStatus tasks i now true, x.id = i →
      x.status = TaskStatus.completed ∧ x.completedAt = some now) ∧
    (∀ x ∈ toggleTaskStatus (toggleTaskStatus tasks i now true) i now2 true,
      x.id = i → x.status = TaskStatus.pending ∧ x.completedAt = none) := by
  obtain ⟨hu1s, hu1c⟩ := toggleUpdates_of_pending (x := t) now hpending
  have hs1 : toggleTaskStatus tasks i now true =
      updateTaskOptimistic i (toggleUpdates t now) tasks := by
    rw [toggleTaskStatus_eq now true hfind, updateTask_true_eq hfind]
  refine ⟨hu1s, hu1c, ?_, ?_⟩
  · intro x hx hxi
    rw [hs1] at hx
    obtain ⟨y, _, _, rfl⟩ := mem_updateTaskOptimistic_id rfl hx hxi
    exact ⟨applyPatch_status_of_some hu1s, applyPatch_completedAt_of_some hu1c⟩
  · intro x hx hxi
    have hfind1 : (toggleTaskStatus tasks i now true).find?
        (fun x => x.id = i) = some (t.applyPatch (toggleUpdates t now)) := by
      rw [hs1, find?_updateTaskOptimistic i _ tasks rfl, hfind,
        Option.map_some']
    have ht1s : (t.applyPatch (toggleUpdates t now)).status =
        TaskStatus.completed := applyPatch_status_of_some hu1s
    obtain ⟨hu2s, hu2c⟩ := toggleUpdates_of_completed now2 ht1s
    rw [toggleTaskStatus_eq now2 true hfind1, updateTask_true_eq hfind1] at hx
    obtain ⟨y, _, _, rfl⟩ := mem_updateTaskOptimistic_id rfl hx hxi
    exact ⟨applyPatch_status_of_some hu2s, applyPatch_completedAt_of_some hu2c⟩

theorem toggle_pending_completes_then_reverts_witness :
    ([taskA].find? (fun x => x.id = "a") = some taskA ∧
      taskA.status = TaskStatus.pending) ∧
    (∀ x ∈ toggleTaskStatus [taskA] "a" 5 true, x.id = "a" →
      x.status = TaskStatus.completed ∧ x.completedAt = some 5) ∧
    (∀ x ∈ toggleTaskStatus (toggleTaskStatus [taskA] "a" 5 true) "a" 9 true,
      x.id = "a" → x.status = TaskStatus.pending ∧ x.completedAt = none) :=
  ⟨⟨by decide, by decide⟩,
   (toggle_pending_completes_then_reverts [taskA] "a" taskA 5 9
      (by decide) (by decide)).2.2.1,
   (toggle_pending_completes_then_reverts [taskA] "a" taskA 5 9
      (by decide) (by decide)).2.2.2⟩

/-! ### Claim C7 -/

/-- `updateTask` preserves the completedAt invariant for any outcome when the
update carries no id and sets status and completedAt either both (and
consistently) or neither. -/
theorem updateTask_preserves_invariant (tasks : List Task) (i : String)
    (u : TaskPatch) (ok : Bool) (hid : u.id = none)
    (hcons : (u.status = none ∧ u.completedAt = none) ∨
      (∃ st ca, u.status = some st ∧ u.completedAt = some ca ∧
        (ca ≠ none ↔ st = TaskStatus.completed)))
    (hall : ∀ x ∈ tasks, completedAtInvariant x) :
    ∀ x ∈ updateTask tasks i u ok, completedAtInvariant x := by
  intro x hx
  cases hfind : tasks.find? (fun t => t.id = i) with
  | none =>
    rw [updateTask_none_eq hfind] at hx
    exact hall x hx
  | some orig =>
    have hmerge : ∀ y ∈ tasks, completedAtInvariant (updateOne i u y) := by
      intro y hy
      by_cases hyi : y.id = i
      · rw [updateOne_of_eq_of_id_none i u y hyi hid]
        cases hcons with
        | inl h =>
          have hinv := hall y hy
          unfold completedAtInvariant at hinv ⊢
          rwa [applyPatch_status_of_none h.1, applyPatch_completedAt_of_none
            h.2]
        | inr h =>
          obtain ⟨st, ca, hst, hca, hiff⟩ := h
          unfold completedAtInvariant
          rw [applyPatch_status_of_some hst, applyPatch_completedAt_of_some
            hca]
          exact hiff
      · rw [updateOne_of_ne i u y hyi]
        exact hall y hy
    cases ok with
    | true =>
      rw [updateTask_true_eq hfind] at hx
      obtain ⟨y, hy, rfl⟩ := List.mem_map.mp hx
      exact hmerge y hy
    | false =>
      rw [updateTask_false_eq hfind] at hx
      obtain ⟨z, hz, rfl⟩ := List.mem_map.mp hx
      obtain ⟨y, hy, rfl⟩ := List.mem_map.mp hz
      by_cases hyi : y.id = i
      · have hmid : (updateOne i u y).id = i := by
          rw [updateOne_id_of_id_none i u y hid]
          exact hyi
        rw [updateOne_toPatch_of_eq i _ orig hmid]
        exact hall orig (find?_id_mem hfind).1
      · rw [updateOne_of_ne i u y hyi, updateOne_of_ne i orig.toPatch y hyi]
        exact hall y hy

/-- The patch built by `toggleTaskStatus` always sets status and completedAt
together and consistently. -/
theorem toggleUpdates_consistent (t : Task) (now : Int) :
    ∃ st ca, (toggleUpdates t now).status = some st ∧
      (toggleUpdates t now).completedAt = some ca ∧
      (ca ≠ none ↔ st = TaskStatus.completed) := by
  cases h : t.status with
  | pending =>
    obtain ⟨h1, h2⟩ := toggleUpdates_of_pending (x := t) now h
    exact ⟨TaskStatus.completed, some now, h1, h2, by simp⟩
  | completed =>
    obtain ⟨h1, h2⟩ := toggleUpdates_of_completed (x := t) now h
    exact ⟨TaskStatus.pending, none, h1, h2, by simp⟩

/-- Claim C7 (amended): the completedAt invariant (`completedAt` non-null iff
status completed) holds for every optimistic entry built by `addTask`, holds
for `dbToTask row` whenever the server row itself satisfies it, and is
preserved by `toggleTaskStatus` (any outcome) and by `updateTask` whenever the
update sets status and completedAt together consistently or sets neither; an
update setting status without completedAt can break it (see the
counterexample). -/
theorem completedAt_invariant_preservation :
    (∀ (d : TaskData) (freshId : String) (now : Int),
      completedAtInvariant (mkOptimisticTask d freshId now)) ∧
    (∀ row : DbRow,
      (row.completed_at ≠ none ↔ row.status = TaskStatus.completed) →
      completedAtInvariant (dbToTask row)) ∧
    (∀ (tasks : List Task) (i : String) (now : Int) (ok : Bool),
      (∀ x ∈ tasks, completedAtInvariant x) →
      ∀ x ∈ toggleTaskStatus tasks i now ok, completedAtInvariant x) ∧
    (∀ (tasks : List Task) (i : String) (u : TaskPatch) (ok : Bool),
      u.id = none →
      ((u.status = none ∧ u.completedAt = none) ∨
        (∃ st ca, u.status = some st ∧ u.completedAt = some ca ∧
          (ca ≠ none ↔ st = TaskStatus.completed))) →
      (∀ x ∈ tasks, completedAtInvariant x) →
      ∀ x ∈ updateTask tasks i u ok, completedAtInvariant x) := by
  refine ⟨?_, ?_, ?_, ?_⟩
  · intro d freshId now
    unfold completedAtInvariant mkOptimisticTask
    simp
  · intro row h
    unfold completedAtInvariant dbToTask
    exact h
  · intro tasks i now ok hall x hx
    cases hfind : tasks.find? (fun x => x.id = i) with
    | none =>
      unfold toggleTaskStatus at hx
      rw [hfind] at hx
      exact hall x hx
    | some task =>
      rw [toggleTaskStatus_eq now ok hfind] at hx
      exact updateTask_preserves_invariant tasks i _ ok rfl
        (Or.inr (toggleUpdates_consistent task now)) hall x hx
  · intro tasks i u ok hid hcons hall
    exact updateTask_preserves_invariant tasks i u ok hid hcons hall

/-- A status-only update, as the cache merge semantics admit. -/
def statusOnlyPatch : TaskPatch := { status := some TaskStatus.completed }

/-- Counterexample to claim C7 as stated: `updateTask` with an update that
sets `status := completed` without touching `completedAt` leaves a cache entry
that is completed with `completedAt = none`, breaking the invariant. -/
theorem update_status_alone_breaks_invariant :
    completedAtInvariant taskA ∧
    updateTask [taskA] "a" statusOnlyPatch true =
      [{ taskA with status := TaskStatus.completed }] ∧
    ¬ completedAtInvariant { taskA with status := TaskStatus.completed } := by
  decide

theorem completedAt_invariant_preservation_witness :
    (∀ x ∈ [taskA], completedAtInvariant x) ∧
    (∀ x ∈ toggleTaskStatus [taskA] "a" 5 true, completedAtInvariant x) :=
  ⟨by decide,
   completedAt_invariant_preservation.2.2.1 [taskA] "a" 5 true (by decide)⟩

/-! ### Claim C8 -/

theorem snoozeReminder_tasks (rid : String) (s : NotifState) :
    (snoozeReminder rid s).tasks = s.tasks := rfl

theorem snoozeReminder_active (rid : String) (s : NotifState) :
    (snoozeReminder rid s).activeReminders = s.activeReminders.map fun r =>
      if r.id = rid then { r with snoozeCount := r.snoozeCount + 1 } else r :=
  rfl

theorem snoozeReminder_timers_of_matched (rid : String) (s : NotifState)
    (h : s.activeReminders.any (fun r => r.id = rid) = true) :
    (snoozeReminder rid s).snoozeTimers =
      (rid, s.nextToken) :: s.snoozeTimers.filter (fun p => p.1 ≠ rid) := by
  unfold snoozeReminder
  simp [h]

theorem snoozeReminder_nextToken_of_matched (rid : String) (s : NotifState)
    (h : s.activeReminders.any (fun r => r.id = rid) = true) :
    (snoozeReminder rid s).nextToken = s.nextToken + 1 := by
  unfold snoozeReminder
  simp [h]

/-- Claim C8: snoozing an active reminder twice leaves exactly one pending
snooze timer for it (the second snooze cancels the first's timer — the timer
token created by the first snooze is no longer live) and every active entry
under that reminder id carries `snoozeCount = 2`; snoozing never touches the
task cache, hence neither any task nor any persisted `triggered` flag. -/
theorem snooze_twice_one_timer (s : NotifState) (rid : String)
    (hmem : ∃ a ∈ s.activeReminders, a.id = rid)
    (hzero : ∀ a ∈ s.activeReminders, a.id = rid → a.snoozeCount = 0) :
    (∀ a ∈ (snoozeReminder rid (snoozeReminder rid s)).activeReminders,
      a.id = rid → a.snoozeCount = 2) ∧
    (snoozeReminder rid (snoozeReminder rid s)).snoozeTimers.countP
      (fun p => p.1 = rid) = 1 ∧
    (rid, s.nextToken) ∉
      (snoozeReminder rid (snoozeReminder rid s)).snoozeTimers ∧
    (snoozeReminder rid (snoozeReminder rid s)).tasks = s.tasks := by
  obtain ⟨a0, ha0, ha0id⟩ := hmem
  have hmatched : s.activeReminders.any (fun r => r.id = rid) = true :=
    List.any_eq_true.mpr ⟨a0, ha0, by simp [ha0id]⟩
  have hbump : ∀ x : ActiveReminder,
      ((fun r => if r.id = rid then { r with snoozeCount := r.snoozeCount + 1 }
        else r) x).id = x.id := by
    intro x
    by_cases hx : x.id = rid <;> simp [hx]
  have hmatched1 : (snoozeReminder rid s).activeReminders.any
      (fun r => r.id = rid) = true := by
    rw [snoozeReminder_active]
    refine List.any_eq_true.mpr ⟨_, List.mem_map_of_mem _ ha0, ?_⟩
    simp [ha0id]
  refine ⟨?_, ?_, ?_, rfl⟩
  · intro a ha haid
    rw [snoozeReminder_active, snoozeReminder_active] at ha
    rw [List.map_map] at ha
    obtain ⟨b, hb, rfl⟩ := List.mem_map.mp ha
    by_cases hbid : b.id = rid
    · have hz := hzero b hb hbid
      simp [Function.comp, hbid, hz]
    · have : (((fun r => if r.id = rid then
          { r with snoozeCount := r.snoozeCount + 1 } else r) ∘
          (fun r => if r.id = rid then
          { r with snoozeCount := r.snoozeCount + 1 } else r)) b).id = b.id :=
        by rw [Function.comp_apply, hbump, hbump]
      rw [this] at haid
      exact absurd haid hbid
  · rw [snoozeReminder_timers_of_matched rid _ hmatched1, List.countP_cons]
    have hzero' : ((snoozeReminder rid s).snoozeTimers.filter
        (fun p => p.1 ≠ rid)).countP (fun p => p.1 = rid) = 0 := by
      rw [List.countP_eq_zero]
      intro p hp
      have := (List.mem_filter.mp hp).2
      simpa using this
    rw [hzero']
    simp
  · rw [snoozeReminder_timers_of_matched rid _ hmatched1,
      snoozeReminder_nextToken_of_matched rid s hmatched]
    intro hcontra
    rcases List.mem_cons.mp hcontra with heq | hmem'
    · have : s.nextToken = s.nextToken + 1 := congrArg Prod.snd heq
      omega
    · have := (List.mem_filter.mp hmem').2
      simp at this

/-- Sample active reminder for concrete instances. -/
def sampleActive : ActiveReminder where
  id := "r1"
  taskId := "a"
  taskTitle := "A"
  reminderTime := 100
  snoozeCount := 0

/-- Sample scheduler state for concrete instances. -/
def sampleNotif : NotifState where
  tasks := [taskA]
  activeReminders := [sampleActive]
  snoozeTimers := []
  nextToken := 0

theorem snooze_twice_one_timer_witness :
    ((∃ a ∈ sampleNotif.activeReminders, a.id = "r1") ∧
      (∀ a ∈ sampleNotif.activeReminders, a.id = "r1" → a.snoozeCount = 0)) ∧
    ((∀ a ∈ (snoozeReminder "r1"
          (snoozeReminder "r1" sampleNotif)).activeReminders,
        a.id = "r1" → a.snoozeCount = 2) ∧
      (snoozeReminder "r1"
          (snoozeReminder "r1" sampleNotif)).snoozeTimers.countP
        (fun p => p.1 = "r1") = 1 ∧
      ("r1", sampleNotif.nextToken) ∉
        (snoozeReminder "r1" (snoozeReminder "r1" sampleNotif)).snoozeTimers ∧
      (snoozeReminder "r1" (snoozeReminder "r1" sampleNotif)).tasks =
        sampleNotif.tasks) :=
  ⟨⟨by decide, by decide⟩,
   snooze_twice_one_timer sampleNotif "r1" (by decide) (by decide)⟩

/-! ### Scheduler scan: splitting the fold -/

theorem applyFires_nil (s : NotifState) : applyFires s [] = s := rfl

theorem applyFires_cons (s : NotifState) (p : Task × Reminder)
    (l : List (Task × Reminder)) :
    applyFires s (p :: l) = applyFires (triggerReminder p.1 p.2 s) l := rfl

theorem applyFires_append (s : NotifState) (l1 l2 : List (Task × Reminder)) :
    applyFires s (l1 ++ l2) = applyFires (applyFires s l1) l2 := by
  unfold applyFires
  rw [List.foldl_append]

/-- The inner fold over a task's reminders in `checkReminders` splits into the
state effect (`applyFires` over the due pairs) and the fired-id log. -/
theorem reminders_foldl_split (now : Int) (t : Task) (rs : List Reminder) :
    ∀ (s : NotifState) (l : List String),
      rs.foldl (fun acc r =>
          if r.triggered then acc
          else if reminderDue now r then
            (triggerReminder t r acc.1, acc.2 ++ [r.id])
          else acc) (s, l) =
        (applyFires s ((rs.filter fun r =>
            !r.triggered && decide (reminderDue now r)).map fun r => (t, r)),
         l ++ ((rs.filter fun r =>
            !r.triggered && decide (reminderDue now r)).map Reminder.id)) := by
  induction rs with
  | nil =>
    intro s l
    simp [applyFires]
  | cons r rs ih =>
    intro s l
    rw [List.foldl_cons]
    by_cases htr : r.triggered = true
    · rw [if_pos htr, List.filter_cons_of_neg (by simp [htr])]
      exact ih s l
    · rw [if_neg htr]
      by_cases hdue : reminderDue now r
      · rw [if_pos hdue,
          List.filter_cons_of_pos (by simp [htr, hdue]),
          List.map_cons, List.map_cons, applyFires_cons,
          ih (triggerReminder t r s) (l ++ [r.id])]
        rw [List.append_assoc]
        rfl
      · rw [if_neg hdue, List.filter_cons_of_neg (by simp [htr, hdue])]
        exact ih s l

/-- `checkReminders` splits into `applyFires` over the fired pairs and the
list of fired reminder ids. -/
theorem checkReminders_split (now : Int) (s : NotifState) :
    checkReminders now s =
      (applyFires s (firedPairs now s.tasks),
       (firedPairs now s.tasks).map fun p => p.2.id) := by
  suffices h : ∀ (ts : List Task) (s0 : NotifState) (l : List String),
      ts.foldl (fun acc task =>
          if task.status = TaskStatus.completed then acc
          else
            task.reminders.foldl (fun acc r =>
                if r.triggered then acc
                else if reminderDue now r then
                  (triggerReminder task r acc.1, acc.2 ++ [r.id])
                else acc) acc) (s0, l) =
        (applyFires s0 (firedPairs now ts),
         l ++ (firedPairs now ts).map fun p => p.2.id) by
    unfold checkReminders
    rw [h s.tasks s []]
    rw [List.nil_append]
  intro ts
  induction ts with
  | nil =>
    intro s0 l
    simp [firedPairs, applyFires]
  | cons t ts ih =>
    intro s0 l
    rw [List.foldl_cons]
    by_cases hst : t.status = TaskStatus.completed
    · rw [if_pos hst]
      have hfp : firedPairs now (t :: ts) = firedPairs now ts := by
        unfold firedPairs
        rw [List.filter_cons_of_neg (by simp [hst])]
      rw [ih s0 l, hfp]
    · rw [if_neg hst]
      rw [reminders_foldl_split now t t.reminders s0 l]
      rw [ih]
      have hfp : firedPairs now (t :: ts) =
          ((t.reminders.filter fun r =>
            !r.triggered && decide (reminderDue now r)).map fun r => (t, r)) ++
            firedPairs now ts := by
        unfold firedPairs
        rw [List.filter_cons_of_pos (by simp [hst]), List.flatMap_cons]
      rw [hfp, applyFires_append, List.map_append, List.append_assoc]
      have hids : ((t.reminders.filter fun r =>
          !r.triggered && decide (reminderDue now r)).map fun r => (t, r)).map
          (fun p => p.2.id) =
          (t.reminders.filter fun r =>
            !r.triggered && decide (reminderDue now r)).map Reminder.id := by
        rw [List.map_map]
        rfl
      rw [hids]

theorem mem_firedPairs {now : Int} {tasks : List Task} {p : Task × Reminder}
    (hp : p ∈ firedPairs now tasks) :
    p.1 ∈ tasks ∧ p.1.status ≠ TaskStatus.completed ∧ p.2 ∈ p.1.reminders ∧
      p.2.triggered = false ∧ reminderDue now p.2 := by
  unfold firedPairs at hp
  obtain ⟨t, ht, hmem⟩ := List.mem_flatMap.mp hp
  obtain ⟨r, hr, rfl⟩ := List.mem_map.mp hmem
  obtain ⟨ht1, ht2⟩ := List.mem_filter.mp ht
  obtain ⟨hr1, hr2⟩ := List.mem_filter.mp hr
  rw [Bool.and_eq_true] at hr2
  refine ⟨ht1, by simpa using ht2, hr1, ?_, by simpa using hr2.2⟩
  simpa using hr2.1

theorem mem_firedPairs_intro {now : Int} {tasks : List Task} {t : Task}
    {r : Reminder} (ht : t ∈ tasks) (hst : t.status ≠ TaskStatus.completed)
    (hr : r ∈ t.reminders) (htr : r.triggered = false)
    (hdue : reminderDue now r) : (t, r) ∈ firedPairs now tasks := by
  unfold firedPairs
  refine List.mem_flatMap.mpr ⟨t, List.mem_filter.mpr ⟨ht, by simp [hst]⟩, ?_⟩
  exact List.mem_map.mpr ⟨r, List.mem_filter.mpr ⟨hr, by simp [htr, hdue]⟩,
    rfl⟩

theorem firedPairs_id_mem_iff (now : Int) (tasks : List Task) (rid : String) :
    rid ∈ (firedPairs now tasks).map (fun p => p.2.id) ↔
      ∃ t ∈ tasks, t.status ≠ TaskStatus.completed ∧
        ∃ r ∈ t.reminders, r.id = rid ∧ r.triggered = false ∧
          r.time ≤ now ∧ now - 60000 < r.time := by
  constructor
  · intro h
    obtain ⟨p, hp, hpid⟩ := List.mem_map.mp h
    obtain ⟨h1, h2, h3, h4, h5⟩ := mem_firedPairs hp
    exact ⟨p.1, h1, h2, p.2, h3, hpid, h4, h5.1, h5.2⟩
  · intro ⟨t, ht, hst, r, hr, hrid, htr, hle, hgt⟩
    exact List.mem_map.mpr ⟨(t, r),
      mem_firedPairs_intro ht hst hr htr ⟨hle, hgt⟩, hrid⟩

/-! ### Claim C3 -/

/-- Reminder of the sample task, parameterised by its trigger time. -/
def remAt (tm : Int) : Reminder where
  id := "r1"
  taskId := "a"
  time := tm
  rtype := "custom"
  triggered := false

/-- Scheduler state holding one pending task carrying one untriggered
reminder at time `tm`. -/
def notifAt (tm : Int) : NotifState where
  tasks := [{ taskA with reminders := [remAt tm] }]
  activeReminders := []
  snoozeTimers := []
  nextToken := 0

/-- Claim C3: a scan of `checkReminders` at time `now` fires a reminder id
exactly when the cache holds a reminder with that id on a task whose status
is not completed, with `triggered = false` and time `t` satisfying
`now - 60s < t ≤ now`; in particular (times in milliseconds, `now = 10^6`) a
reminder at `now - 30s` fires while reminders at `now - 90s` and `now + 10s`
do not. -/
theorem scan_fires_iff :
    (∀ (now : Int) (s : NotifState) (rid : String),
      rid ∈ (checkReminders now s).2 ↔
        ∃ t ∈ s.tasks, t.status ≠ TaskStatus.completed ∧
          ∃ r ∈ t.reminders, r.id = rid ∧ r.triggered = false ∧
            r.time ≤ now ∧ now - 60000 < r.time) ∧
    "r1" ∈ (checkReminders 1000000 (notifAt (1000000 - 30000))).2 ∧
    "r1" ∉ (checkReminders 1000000 (notifAt (1000000 - 90000))).2 ∧
    "r1" ∉ (checkReminders 1000000 (notifAt (1000000 + 10000))).2 := by
  refine ⟨?_, by decide, by decide, by decide⟩
  intro now s rid
  rw [checkReminders_split]
  exact firedPairs_id_mem_iff now s.tasks rid

/-! ### Claim C4: active-reminder set lemmas -/

theorem triggerReminder_active_eq_of_any_true (t : Task) (r : Reminder)
    (s : NotifState)
    (hany : s.activeReminders.any (fun x => x.id = r.id) = true) :
    (triggerReminder t r s).activeReminders = s.activeReminders := by
  simp [triggerReminder, hany]

theorem triggerReminder_active_eq_of_any_false (t : Task) (r : Reminder)
    (s : NotifState)
    (hany : s.activeReminders.any (fun x => x.id = r.id) = false) :
    (triggerReminder t r s).activeReminders = s.activeReminders ++
      [{ id := r.id, taskId := t.id, taskTitle := t.title,
         reminderTime := r.time, snoozeCount := 0 }] := by
  simp [triggerReminder, hany]

theorem triggerReminder_active_monotone {rid : String} (t : Task)
    (r : Reminder) (s : NotifState)
    (h : rid ∈ s.activeReminders.map ActiveReminder.id) :
    rid ∈ (triggerReminder t r s).activeReminders.map ActiveReminder.id := by
  cases hany : s.activeReminders.any (fun x => x.id = r.id) with
  | true => rw [triggerReminder_active_eq_of_any_true t r s hany]; exact h
  | false =>
    rw [triggerReminder_active_eq_of_any_false t r s hany, List.map_append]
    exact List.mem_append_left _ h

theorem triggerReminder_active_of_fired (t : Task) (r : Reminder)
    (s : NotifState) :
    r.id ∈ (triggerReminder t r s).activeReminders.map ActiveReminder.id := by
  cases hany : s.activeReminders.any (fun x => x.id = r.id) with
  | true =>
    obtain ⟨a, ha, haid⟩ := List.any_eq_true.mp hany
    rw [triggerReminder_active_eq_of_any_true t r s hany]
    simp only [decide_eq_true_eq] at haid
    exact List.mem_map.mpr ⟨a, ha, haid⟩
  | false =>
    rw [triggerReminder_active_eq_of_any_false t r s hany, List.map_append]
    exact List.mem_append_right _ (by simp)

theorem triggerReminder_countP_le_one {rid : String} (t : Task) (r : Reminder)
    (s : NotifState)
    (h : s.activeReminders.countP (fun a => a.id = rid) ≤ 1) :
    (triggerReminder t r s).activeReminders.countP
      (fun a => a.id = rid) ≤ 1 := by
  cases hany : s.activeReminders.any (fun x => x.id = r.id) with
  | true => rw [triggerReminder_active_eq_of_any_true t r s hany]; exact h
  | false =>
    rw [triggerReminder_active_eq_of_any_false t r s hany, List.countP_append]
    by_cases hr : r.id = rid
    · have hzero : s.activeReminders.countP (fun a => a.id = rid) = 0 := by
        rw [List.countP_eq_zero]
        intro a ha
        simp only [decide_eq_true_eq]
        intro haid
        have hfalse := List.any_eq_false.mp hany a ha
        simp only [decide_eq_true_eq] at hfalse
        exact hfalse (haid.trans hr.symm)
      rw [hzero]
      simp [hr]
    · have : List.countP (fun a => decide (a.id = rid))
          [({ id := r.id, taskId := t.id, taskTitle := t.title,
              reminderTime := r.time, snoozeCount := 0 } : ActiveReminder)]
          = 0 := by
        simp [hr]
      rw [this]
      simpa using h

theorem applyFires_active_monotone {rid : String}
    (l : List (Task × Reminder)) {s : NotifState}
    (h : rid ∈ s.activeReminders.map ActiveReminder.id) :
    rid ∈ (applyFires s l).activeReminders.map ActiveReminder.id := by
  induction l generalizing s with
  | nil => exact h
  | cons p l ih =>
    rw [applyFires_cons]
    exact ih (triggerReminder_active_monotone p.1 p.2 s h)

theorem applyFires_mem_of_fired {rid : String}
    (l : List (Task × Reminder)) {s : NotifState}
    (hl : ∃ p ∈ l, p.2.id = rid) :
    rid ∈ (applyFires s l).activeReminders.map ActiveReminder.id := by
  induction l generalizing s with
  | nil => simp at hl
  | cons p l ih =>
    rw [applyFires_cons]
    obtain ⟨q, hq, hqid⟩ := hl
    rcases List.mem_cons.mp hq with rfl | hq'
    · exact applyFires_active_monotone l
        (hqid ▸ triggerReminder_active_of_fired q.1 q.2 s)
    · exact ih ⟨q, hq', hqid⟩

theorem applyFires_countP_le_one {rid : String}
    (l : List (Task × Reminder)) {s : NotifState}
    (h : s.activeReminders.countP (fun a => a.id = rid) ≤ 1) :
    (applyFires s l).activeReminders.countP (fun a => a.id = rid) ≤ 1 := by
  induction l generalizing s with
  | nil => exact h
  | cons p l ih =>
    rw [applyFires_cons]
    exact ih (triggerReminder_countP_le_one p.1 p.2 s h)

/-! ### Claim C4: task-cache invariants across a scan -/

theorem triggerReminder_tasks (t : Task) (r : Reminder) (s : NotifState) :
    (triggerReminder t r s).tasks =
      s.tasks.map (updateOne t.id
        { reminders := some (t.reminders.map fun x =>
            if x.id = r.id then { x with triggered := true } else x) }) := rfl

theorem updateOne_reminders_patch (i : String) (rs : List Reminder)
    (y : Task) :
    updateOne i { reminders := some rs } y =
      if y.id = i then { y with reminders := rs } else y := by
  by_cases hy : y.id = i
  · rw [updateOne_of_eq_of_id_none i _ y hy rfl, if_pos hy]
    rfl
  · rw [updateOne_of_ne i _ y hy, if_neg hy]

theorem triggerMark_id (rid : String) (x : Reminder) :
    (if x.id = rid then { x with triggered := true } else x).id = x.id := by
  by_cases hx : x.id = rid <;> simp [hx]

/-- Folding the fired pairs of a scan over the state keeps two facts about
the task cache: no task other than `t` carries a reminder with id `r.id`,
and — once the pair `(t, r)` has been processed — every reminder with id
`r.id` held by a cache entry under `t`'s id is marked triggered.  The pairs
come from the scan snapshot, which is how the source computes each patch
(`task.reminders` of the captured `task`, not of the current cache); the
hypothesis that every fired pair of `t` is `(t, r)` is essential, because a
second same-task fire would rebuild the reminders from the snapshot and
reset the first reminder's flag (see the claim C4 counterexample). -/
theorem applyFires_tasks_invariant (t : Task) (r : Reminder)
    (snapshot : List Task)
    (hforeign : ∀ x ∈ snapshot, ∀ m ∈ x.reminders, m.id = r.id →
      x.id = t.id) :
    ∀ (l : List (Task × Reminder)) (s : NotifState),
      (∀ p ∈ l, p.1 ∈ snapshot ∧ p.2 ∈ p.1.reminders) →
      (∀ p ∈ l, p.1.id = t.id → p.2 = r) →
      (∀ x ∈ s.tasks, x.id ≠ t.id → ∀ m ∈ x.reminders, m.id ≠ r.id) →
      ((t, r) ∈ l ∨
        (∀ x ∈ s.tasks, x.id = t.id → ∀ m ∈ x.reminders, m.id = r.id →
          m.triggered = true)) →
      (∀ x ∈ (applyFires s l).tasks, x.id ≠ t.id →
        ∀ m ∈ x.reminders, m.id ≠ r.id) ∧
      (∀ x ∈ (applyFires s l).tasks, x.id = t.id →
        ∀ m ∈ x.reminders, m.id = r.id → m.triggered = true) := by
  intro l
  induction l with
  | nil =>
    intro s _ _ hfor hdisj
    refine ⟨hfor, ?_⟩
    cases hdisj with
    | inl h => exact absurd h (List.not_mem_nil _)
    | inr h => exact h
  | cons p l ih =>
    intro s hl huniq hfor hdisj
    rw [applyFires_cons]
    obtain ⟨hp1, hp2⟩ := hl p (List.mem_cons_self p l)
    have hltail : ∀ q ∈ l, q.1 ∈ snapshot ∧ q.2 ∈ q.1.reminders :=
      fun q hq => hl q (List.mem_cons_of_mem p hq)
    have huniqtail : ∀ q ∈ l, q.1.id = t.id → q.2 = r :=
      fun q hq => huniq q (List.mem_cons_of_mem p hq)
    have htasks := triggerReminder_tasks p.1 p.2 s
    have hfor' : ∀ x ∈ (triggerReminder p.1 p.2 s).tasks, x.id ≠ t.id →
        ∀ m ∈ x.reminders, m.id ≠ r.id := by
      intro x hx hxne m hm
      rw [htasks] at hx
      obtain ⟨y, hy, rfl⟩ := List.mem_map.mp hx
      by_cases hyid : y.id = p.1.id
      · rw [updateOne_reminders_patch, if_pos hyid] at hm hxne
        obtain ⟨x0, hx0, rfl⟩ := List.mem_map.mp hm
        rw [triggerMark_id]
        intro hx0id
        exact hxne (hyid.trans (hforeign p.1 hp1 x0 hx0 hx0id))
      · rw [updateOne_reminders_patch, if_neg hyid] at hm hxne
        exact hfor y hy hxne m hm
    by_cases hpt : p.1.id = t.id
    · have hp2r : p.2 = r := huniq p (List.mem_cons_self p l) hpt
      have htarget' : ∀ x ∈ (triggerReminder p.1 p.2 s).tasks,
          x.id = t.id → ∀ m ∈ x.reminders, m.id = r.id →
          m.triggered = true := by
        intro x hx hxid m hm hmid
        rw [htasks] at hx
        obtain ⟨y, hy, rfl⟩ := List.mem_map.mp hx
        by_cases hyid : y.id = p.1.id
        · rw [updateOne_reminders_patch, if_pos hyid] at hm
          obtain ⟨x0, hx0, rfl⟩ := List.mem_map.mp hm
          rw [triggerMark_id] at hmid
          rw [if_pos (show x0.id = p.2.id by rw [hp2r]; exact hmid)]
        · rw [updateOne_reminders_patch, if_neg hyid] at hxid
          exact absurd (hxid.trans hpt.symm) hyid
      exact ih (triggerReminder p.1 p.2 s) hltail huniqtail hfor'
        (Or.inr htarget')
    · have htrans : ∀ (P : Task → Prop),
          (∀ x ∈ s.tasks, x.id = t.id → P x) →
          ∀ x ∈ (triggerReminder p.1 p.2 s).tasks, x.id = t.id → P x := by
        intro P hP x hx hxid
        rw [htasks] at hx
        obtain ⟨y, hy, rfl⟩ := List.mem_map.mp hx
        by_cases hyid : y.id = p.1.id
        · rw [updateOne_reminders_patch, if_pos hyid] at hxid
          exact absurd (hyid.symm.trans hxid) hpt
        · rw [updateOne_reminders_patch, if_neg hyid] at hxid ⊢
          exact hP y hy hxid
      cases hdisj with
      | inl hd =>
        have hmem : (t, r) ∈ l := by
          rcases List.mem_cons.mp hd with heq | hmem'
          · exfalso
            apply hpt
            rw [← heq]
          · exact hmem'
        exact ih (triggerReminder p.1 p.2 s) hltail huniqtail hfor'
          (Or.inl hmem)
      | inr hd =>
        exact ih (triggerReminder p.1 p.2 s) hltail huniqtail hfor'
          (Or.inr (htrans (fun x => ∀ m ∈ x.reminders, m.id = r.id →
            m.triggered = true) hd))

/-- Once every reminder with the fired id held under the task's id is marked
triggered, and no other task carries the id, later scans never fire it
again. -/
theorem no_refire_after_invariant {t : Task} {r : Reminder} {ts : List Task}
    (hfor : ∀ x ∈ ts, x.id ≠ t.id → ∀ m ∈ x.reminders, m.id ≠ r.id)
    (htar : ∀ x ∈ ts, x.id = t.id → ∀ m ∈ x.reminders, m.id = r.id →
      m.triggered = true) (now2 : Int) :
    r.id ∉ (firedPairs now2 ts).map (fun p => p.2.id) := by
  intro hmem
  rw [firedPairs_id_mem_iff] at hmem
  obtain ⟨t', ht', hst', r', hr', hrid', htrig', hle', hgt'⟩ := hmem
  by_cases hid : t'.id = t.id
  · have htrue := htar t' ht' hid r' hr' hrid'
    rw [htrig'] at htrue
    exact Bool.false_ne_true htrue
  · exact hfor t' ht' hid r' hr' hrid'

/-- Claim C4 (amended): running the scan twice for the same reminder yields
exactly one Active Reminder entry for its id — the active set is
deduplicated by id.  The `triggered` flag patched on the first fire excludes
the reminder from the second scan provided no other reminder of the same
task fires in the first scan: `triggerReminder` rebuilds the task's
reminders from the scan snapshot, so a second same-task fire in one scan
resets the first reminder's flag and its notification is emitted again on
the next scan (see the counterexample). -/
theorem scan_twice_single_active_entry (s : NotifState) (t : Task)
    (r : Reminder) (now1 now2 : Int)
    (h1 : t ∈ s.tasks)
    (h0 : t.status ≠ TaskStatus.completed)
    (h2 : r ∈ t.reminders)
    (h3 : r.triggered = false)
    (h4 : reminderDue now1 r)
    (h5 : ∀ a ∈ s.activeReminders, a.id ≠ r.id)
    (h6 : ∀ m ∈ t.reminders, m.triggered = false → reminderDue now1 m →
      m = r)
    (h7 : ∀ x ∈ s.tasks, ∀ m ∈ x.reminders, m.id = r.id → x.id = t.id)
    (h8 : (s.tasks.map Task.id).Nodup) :
    (checkReminders now2 (checkReminders now1 s).1).1.activeReminders.countP
      (fun a => a.id = r.id) = 1 ∧
    r.id ∉ (checkReminders now2 (checkReminders now1 s).1).2 := by
  have hfired1 : (t, r) ∈ firedPairs now1 s.tasks :=
    mem_firedPairs_intro h1 h0 h2 h3 h4
  have e1 : (checkReminders now1 s).1 =
      applyFires s (firedPairs now1 s.tasks) := by
    rw [checkReminders_split]
  have e2 : (checkReminders now2
      (applyFires s (firedPairs now1 s.tasks))).1 =
      applyFires (applyFires s (firedPairs now1 s.tasks))
        (firedPairs now2
          (applyFires s (firedPairs now1 s.tasks)).tasks) := by
    rw [checkReminders_split]
  have e3 : (checkReminders now2
      (applyFires s (firedPairs now1 s.tasks))).2 =
      (firedPairs now2 (applyFires s (firedPairs now1 s.tasks)).tasks).map
        (fun p => p.2.id) := by
    rw [checkReminders_split]
  rw [e1, e2, e3]
  have hc0 : s.activeReminders.countP (fun a => a.id = r.id) = 0 := by
    rw [List.countP_eq_zero]
    intro a ha
    simp only [decide_eq_true_eq]
    exact h5 a ha
  have hmem1 : r.id ∈ (applyFires s
      (firedPairs now1 s.tasks)).activeReminders.map ActiveReminder.id :=
    applyFires_mem_of_fired _ ⟨(t, r), hfired1, rfl⟩
  have hle1 : (applyFires s
      (firedPairs now1 s.tasks)).activeReminders.countP
      (fun a => a.id = r.id) ≤ 1 :=
    applyFires_countP_le_one _ (by omega)
  constructor
  · have hmem2 : r.id ∈ (applyFires (applyFires s (firedPairs now1 s.tasks))
        (firedPairs now2 (applyFires s
          (firedPairs now1 s.tasks)).tasks)).activeReminders.map
        ActiveReminder.id :=
      applyFires_active_monotone _ hmem1
    have hle2 : (applyFires (applyFires s (firedPairs now1 s.tasks))
        (firedPairs now2 (applyFires s
          (firedPairs now1 s.tasks)).tasks)).activeReminders.countP
        (fun a => a.id = r.id) ≤ 1 :=
      applyFires_countP_le_one _ hle1
    have hpos2 : 0 < (applyFires (applyFires s (firedPairs now1 s.tasks))
        (firedPairs now2 (applyFires s
          (firedPairs now1 s.tasks)).tasks)).activeReminders.countP
        (fun a => a.id = r.id) := by
      rw [List.countP_pos_iff]
      obtain ⟨a, ha, haid⟩ := List.mem_map.mp hmem2
      exact ⟨a, ha, by simp [haid]⟩
    omega
  · have hforeign0 : ∀ x ∈ s.tasks, x.id ≠ t.id →
        ∀ m ∈ x.reminders, m.id ≠ r.id := by
      intro x hx hxne m hm hmid
      exact hxne (h7 x hx m hm hmid)
    have hside : ∀ p ∈ firedPairs now1 s.tasks,
        p.1 ∈ s.tasks ∧ p.2 ∈ p.1.reminders := by
      intro p hp
      obtain ⟨ha, _, hb, _, _⟩ := mem_firedPairs hp
      exact ⟨ha, hb⟩
    have huniq : ∀ p ∈ firedPairs now1 s.tasks, p.1.id = t.id → p.2 = r := by
      intro p hp hpid
      obtain ⟨hpmem, _, hprem, hptrig, hpdue⟩ := mem_firedPairs hp
      have hp1t : p.1 = t := eq_of_mem_of_nodup_ids h8 hpmem h1 hpid
      rw [hp1t] at hprem
      exact h6 p.2 hprem hptrig hpdue
    obtain ⟨hforS1, htarS1⟩ := applyFires_tasks_invariant t r s.tasks
      h7 (firedPairs now1 s.tasks) s hside huniq hforeign0
      (Or.inl hfired1)
    exact no_refire_after_invariant hforS1 htarS1 now2

theorem scan_twice_single_active_entry_witness :
    (({ taskA with reminders := [remAt 1000] } : Task) ∈
        (notifAt 1000).tasks ∧
      ({ taskA with reminders := [remAt 1000] } : Task).status ≠
        TaskStatus.completed ∧
      remAt 1000 ∈ ({ taskA with reminders := [remAt 1000] } : Task).reminders ∧
      (remAt 1000).triggered = false ∧
      reminderDue 1000 (remAt 1000) ∧
      (∀ a ∈ (notifAt 1000).activeReminders, a.id ≠ (remAt 1000).id) ∧
      (∀ m ∈ ({ taskA with reminders := [remAt 1000] } : Task).reminders,
        m.triggered = false → reminderDue 1000 m → m = remAt 1000) ∧
      (∀ x ∈ (notifAt 1000).tasks, ∀ m ∈ x.reminders,
        m.id = (remAt 1000).id →
        x.id = ({ taskA with reminders := [remAt 1000] } : Task).id) ∧
      ((notifAt 1000).tasks.map Task.id).Nodup) ∧
    ((checkReminders 1030
        (checkReminders 1000 (notifAt 1000)).1).1.activeReminders.countP
      (fun a => a.id = (remAt 1000).id) = 1 ∧
      (remAt 1000).id ∉
        (checkReminders 1030 (checkReminders 1000 (notifAt 1000)).1).2) :=
  ⟨⟨by decide, by decide, by decide, by decide, by decide, by decide,
    by decide, by decide, by decide⟩,
   scan_twice_single_active_entry (notifAt 1000)
     { taskA with reminders := [remAt 1000] } (remAt 1000) 1000 1030
     (by decide) (by decide) (by decide) (by decide) (by decide) (by decide)
     (by decide) (by decide) (by decide)⟩

/-- First of two reminders on one task, both due in the same scan. -/
def remA2 : Reminder where
  id := "r1"
  taskId := "a"
  time := 1000
  rtype := "custom"
  triggered := false

/-- Second of two reminders on one task, both due in the same scan. -/
def remB2 : Reminder where
  id := "r2"
  taskId := "a"
  time := 1000
  rtype := "custom"
  triggered := false

/-- Scheduler state with one pending task carrying two untriggered reminders
due at the same time. -/
def twoRemState : NotifState where
  tasks := [{ taskA with reminders := [remA2, remB2] }]
  activeReminders := []
  snoozeTimers := []
  nextToken := 0

/-- Counterexample to claim C4 as stated: the reminder `r1` fires in the
first scan, yet after that scan the cache holds it with `triggered = false`
again — the second fire of the same task (`r2`) rebuilt the reminders array
from the scan snapshot, resetting `r1`'s flag — and `r1` fires once more on
the next scan inside the same 60-second window, so the triggered flag set on
the first fire does not exclude the reminder from subsequent scans. -/
theorem same_task_second_fire_resets_triggered_flag :
    "r1" ∈ (checkReminders 1000 twoRemState).2 ∧
    (checkReminders 1000 twoRemState).1.tasks =
      [{ taskA with
          reminders := [remA2, { remB2 with triggered := true }] }] ∧
    "r1" ∈ (checkReminders 1030 (checkReminders 1000 twoRemState).1).2 := by
  decide

end ZestTaskDash
